import Mathlib

/-!
Verification development for the Arduino IDE `DebugConfigurationManager`
(`src/arduino-ide-extension/src/browser/theia/debug/debug-configuration-manager.ts`).

The TypeScript class is shallowly embedded as pure Lean functions over an
explicit environment (`SketchEnv`) that records the outcome of each external
collaborator call (current-sketch validity, temp-folder resolution, folder
creation, file read, JSON/Model parsing).  Stateful methods become functions
from the prior state to a result record that also carries ghost
instrumentation (effect traces, log counts, disposal lists) so that the
observable behaviour of each code path can be stated and proved.
-/

/-- Theia's `FileOperationResult` enum from
`@theia/filesystem/lib/common/files`. -/
inductive FileOperationResult
  | FILE_IS_DIRECTORY
  | FILE_NOT_FOUND
  | FILE_NOT_MODIFIED_SINCE
  | FILE_MODIFIED_SINCE
  | FILE_MOVE_CONFLICT
  | FILE_WRITE_LOCKED
  | FILE_PERMISSION_DENIED
  | FILE_TOO_LARGE
  | FILE_INVALID_PATH
  | FILE_NOT_DIRECTORY
  | FILE_OTHER_ERROR
deriving DecidableEq, Repr

/-- A JavaScript error value as observed by the `catch` block of
`getTempLaunchJsonContent`: either a Theia `FileOperationError` carrying a
`FileOperationResult`, a JSON/configuration parse error, or any other
thrown value. -/
inductive JsError
  | fileOperationError (result : FileOperationResult)
  | jsonParseError (msg : String)
  | otherError (msg : String)
deriving DecidableEq, Repr

/-- A debug launch configuration (`DebugConfiguration` from
`@theia/debug/lib/common/debug-common`); only identity matters here. -/
structure DebugConfiguration where
  type : String
  name : String
  request : String
deriving DecidableEq, Repr

/-- A compound launch entry; this manager always produces `[]` for it. -/
structure DebugCompound where
  name : String
deriving DecidableEq, Repr

/-- The successful return shape of `getTempLaunchJsonContent`:
`TheiaDebugConfigurationModel.JsonContent & { uri: URI }`. -/
structure JsonContent where
  uri : String
  configurations : List DebugConfiguration
  compounds : List DebugCompound
deriving DecidableEq, Repr

/-- The three non-throwing outcomes of `getTempLaunchJsonContent`:
`undefined` (no valid current sketch), the bare temp-folder `URI`
(the "missing file" sentinel), or the parsed `JsonContent`. -/
inductive TempResult
  | noSketch
  | missing (folderUri : String)
  | present (content : JsonContent)
deriving DecidableEq, Repr

/-- File-system side effects performed by `getTempLaunchJsonContent`. -/
inductive FsEffect
  | createFolder (uri : String)
  | readFile (uri : String)
deriving DecidableEq, Repr

/-- Environment for one call to `getTempLaunchJsonContent`: the behaviour of
every external collaborator the call consults. -/
structure SketchEnv where
  /-- The result of `CurrentSketch.isValid(sketch)` for the current sketch. -/
  sketchValid : Bool
  /-- The URI returned by `sketchesService.getIdeTempFolderUri(sketch)`. -/
  tempFolderUri : String
  /-- Outcome of `fileService.createFolder(tempFolderUri)`. -/
  createFolderResult : Except JsError Unit
  /-- Outcome of `fileService.read(uri)` (the `value` text on success). -/
  readFileResult : Except JsError String
  /-- The parser `DebugConfigurationModel.parse(JSON.parse(value))`, collapsed
  into one fallible function from the file text to the configuration list. -/
  parse : String → Except JsError (List DebugConfiguration)

/-- The file URI `tempFolderUri.resolve('launch.json')`. -/
def launchJsonUri (folderUri : String) : String :=
  folderUri ++ "/launch.json"

/-- The body of the `try` block of `getTempLaunchJsonContent`: read the file,
parse it, and build the `JsonContent` with empty `compounds`. -/
def tryReadParse (env : SketchEnv) : Except JsError JsonContent :=
  match env.readFileResult with
  | .error e => .error e
  | .ok value =>
    match env.parse value with
    | .error e => .error e
    | .ok configurations =>
      .ok ⟨launchJsonUri env.tempFolderUri, configurations, []⟩

/-- The `catch` block's test:
`err instanceof FileOperationError && err.fileOperationResult === FileOperationResult.FILE_NOT_FOUND`. -/
def isFileNotFoundError : JsError → Bool
  | .fileOperationError .FILE_NOT_FOUND => true
  | _ => false

/-- Result record for one call to `getTempLaunchJsonContent`: the returned
value or thrown error, the file-system effects performed, and the number of
`console.error` calls made. -/
structure ReadOutcome where
  result : Except JsError TempResult
  effects : List FsEffect
  logs : Nat
deriving Repr

/-- Shallow embedding of `DebugConfigurationManager.getTempLaunchJsonContent`
(lines 127–155).  Returns `noSketch` when the current sketch is invalid;
otherwise creates the temp folder (a failure there escapes the `try` block,
so it is rethrown unlogged), then reads and parses `launch.json`.  A caught
`FileOperationError` of kind `FILE_NOT_FOUND` yields the `missing` sentinel;
any other caught error is logged once via `console.error` and rethrown. -/
def getTempLaunchJsonContent (env : SketchEnv) : ReadOutcome :=
  if env.sketchValid then
    match env.createFolderResult with
    | .error e => ⟨.error e, [.createFolder env.tempFolderUri], 0⟩
    | .ok _ =>
      let effects : List FsEffect :=
        [.createFolder env.tempFolderUri,
         .readFile (launchJsonUri env.tempFolderUri)]
      match tryReadParse env with
      | .ok content => ⟨.ok (.present content), effects, 0⟩
      | .error e =>
        if isFileNotFoundError e then
          ⟨.ok (.missing env.tempFolderUri), effects, 0⟩
        else
          ⟨.error e, effects, 1⟩
  else
    ⟨.ok .noSketch, [], 0⟩

/-- One file-change record of a `FilesChangeEvent`, reduced to the two path
components lines 61–62 inspect: `resource.path.base` and
`resource.parent.path.base`. -/
structure FileChange where
  base : String
  parentBase : String
deriving DecidableEq, Repr

/-- Character-wise lowercasing, modelling JavaScript's `toLowerCase()`.
(`String.toLower` maps `Char.toLower` over the string as well, but through
well-founded recursion that does not reduce; the direct map over the
character list is used so concrete instances evaluate.) -/
def lowerString (s : String) : String :=
  ⟨s.data.map Char.toLower⟩

/-- Normalization of the watched temp folder's base name applied at setup
(line 57): `path.base.toLowerCase()`. -/
def normalizedTempFolderName (folderBase : String) : String :=
  lowerString folderBase

/-- The filter of lines 61–62: the change is for a file named exactly
`launch.json` whose parent folder's name equals (case-insensitively) the
resolved temp folder name. -/
def isLaunchJsonChange (tempFolderName : String) (c : FileChange) : Bool :=
  c.base == "launch.json" && lowerString c.parentBase == tempFolderName

/-- Observable outcome of delivering one batch of file-change events to the
`onDidFilesChange` listener: how many re-reads were triggered, which
contents were fired on `onTempContentDidChange`, and the file-system
effects of the re-read. -/
structure WatchOutcome where
  rereads : Nat
  fired : List JsonContent
  effects : List FsEffect
deriving Repr

/-- Shallow embedding of the `onDidFilesChange` listener installed by
`doInit` (lines 58–72): scan the batch for the first matching change
(`break` after the first hit), trigger one re-read, and fire the emitter
only when the re-read resolves to a `present` content. -/
def handleFilesChange (env : SketchEnv) (tempFolderName : String)
    (changes : List FileChange) : WatchOutcome :=
  match changes.find? (isLaunchJsonChange tempFolderName) with
  | none => ⟨0, [], []⟩
  | some _ =>
    let o := getTempLaunchJsonContent env
    match o.result with
    | .ok (.present c) => ⟨1, [c], o.effects⟩
    | _ => ⟨1, [], o.effects⟩

/-- The in-memory `DebugConfigurationModel` as far as this manager observes
it: the owning workspace-root key, the seeded configuration list, and the
optional backing file URI (lines 106–112). -/
structure Model where
  key : String
  configurations : List DebugConfiguration
  uri : Option String
deriving DecidableEq, Repr

/-- The `this.models` map, embedded as an insertion-ordered association
list with unique keys (a JS `Map`). -/
abbrev ModelMap := List (String × Model)

/-- The membership test `this.models.has(key)`. -/
def hasKey : ModelMap → String → Bool
  | [], _ => false
  | p :: t, k => (p.1 == k) || hasKey t k

/-- The lookup `this.models.get(key)`: the entry for `k` (keys are unique
in a JS `Map`, so the first match is the match). -/
def lookupModel : ModelMap → String → Option Model
  | [], _ => none
  | p :: t, k => if p.1 == k then some p.2 else lookupModel t k

/-- State threaded through the creation loop of `updateModels`
(lines 95–117).  `models` is the live map; the remaining fields are ghost
instrumentation: which new roots had `getTempLaunchJsonContent` called
(`attemptedKeys`), which were skipped because no sketch was active
(`skippedKeys`), the accumulated file-system effects and log count, and the
error that aborted the loop, if any. -/
structure LoopState where
  models : ModelMap
  attemptedKeys : List String
  skippedKeys : List String
  effects : List FsEffect
  logs : Nat
  error : Option JsError
deriving Repr

/-- The `for (const rootStat of roots)` loop of `updateModels`
(lines 95–117): for each root key not yet in the map, call
`getTempLaunchJsonContent` (behaviour given by `envAt key`); `continue` on
`undefined` (no sketch), abort the pass if the call throws, otherwise
register a new `DebugConfigurationModel` seeded from the result (empty
configurations and absent URI when the file was missing). -/
def createLoop (envAt : String → SketchEnv) :
    List String → LoopState → LoopState
  | [], s => s
  | key :: rest, s =>
    if hasKey s.models key then
      createLoop envAt rest s
    else
      match (getTempLaunchJsonContent (envAt key)).result with
      | .error e =>
        { s with
          attemptedKeys := s.attemptedKeys ++ [key]
          effects := s.effects ++ (getTempLaunchJsonContent (envAt key)).effects
          logs := s.logs + (getTempLaunchJsonContent (envAt key)).logs
          error := some e }
      | .ok .noSketch =>
        createLoop envAt rest
          { s with
            attemptedKeys := s.attemptedKeys ++ [key]
            skippedKeys := s.skippedKeys ++ [key]
            effects := s.effects ++ (getTempLaunchJsonContent (envAt key)).effects
            logs := s.logs + (getTempLaunchJsonContent (envAt key)).logs }
      | .ok (.missing _) =>
        createLoop envAt rest
          { s with
            models := s.models ++ [(key, ⟨key, [], none⟩)]
            attemptedKeys := s.attemptedKeys ++ [key]
            effects := s.effects ++ (getTempLaunchJsonContent (envAt key)).effects
            logs := s.logs + (getTempLaunchJsonContent (envAt key)).logs }
      | .ok (.present c) =>
        createLoop envAt rest
          { s with
            models := s.models ++ [(key, ⟨key, c.configurations, some c.uri⟩)]
            attemptedKeys := s.attemptedKeys ++ [key]
            effects := s.effects ++ (getTempLaunchJsonContent (envAt key)).effects
            logs := s.logs + (getTempLaunchJsonContent (envAt key)).logs }

/-- Result of one reconciliation pass (one invocation of the debounced
`updateModels` body): the resulting map, which keys were disposed, the
ghost instrumentation of the creation loop, whether the end-of-pass
`updateCurrent()` ran, and the error that rejected the pass, if any. -/
structure PassResult where
  models : ModelMap
  disposedKeys : List String
  attemptedKeys : List String
  skippedKeys : List String
  effects : List FsEffect
  logs : Nat
  firedUpdateCurrent : Bool
  error : Option JsError
deriving Repr

/-- The loop state at the start of one `updateModels` pass: the current
model map with empty ghost instrumentation. -/
def initState (models₀ : ModelMap) : LoopState :=
  { models := models₀, attemptedKeys := [], skippedKeys := []
    effects := [], logs := 0, error := none }

/-- The `toDelete` set of lines 94 and 97: it starts as the current key set
and every incoming root key is removed from it, leaving the keys absent
from the snapshot. -/
def passToDelete (models₀ : ModelMap) (roots : List String) : List String :=
  (models₀.map Prod.fst).filter (fun k => !roots.contains k)

/-- Shallow embedding of one pass of `updateModels` (lines 91–125) over the
root-key snapshot `roots`.  If the creation loop throws, the pass rejects
with the partial map and performs neither disposal nor `updateCurrent()`;
otherwise each surviving `toDelete` key's model is disposed, disposal
removes it from the map (the `onDispose` listener of line 114), and
`updateCurrent()` runs once at the end. -/
def updateModelsPass (envAt : String → SketchEnv) (models₀ : ModelMap)
    (roots : List String) : PassResult :=
  match (createLoop envAt roots (initState models₀)).error with
  | some e =>
    { models := (createLoop envAt roots (initState models₀)).models
      disposedKeys := []
      attemptedKeys := (createLoop envAt roots (initState models₀)).attemptedKeys
      skippedKeys := (createLoop envAt roots (initState models₀)).skippedKeys
      effects := (createLoop envAt roots (initState models₀)).effects
      logs := (createLoop envAt roots (initState models₀)).logs
      firedUpdateCurrent := false
      error := some e }
  | none =>
    { models := (createLoop envAt roots (initState models₀)).models.filter
        (fun p => !(passToDelete models₀ roots).contains p.1)
      disposedKeys := (passToDelete models₀ roots).filter
        (fun k => hasKey (createLoop envAt roots (initState models₀)).models k)
      attemptedKeys := (createLoop envAt roots (initState models₀)).attemptedKeys
      skippedKeys := (createLoop envAt roots (initState models₀)).skippedKeys
      effects := (createLoop envAt roots (initState models₀)).effects
      logs := (createLoop envAt roots (initState models₀)).logs
      firedUpdateCurrent := true
      error := none }


/-- The debounce quiet window of `updateModels` (line 125): 500 ms. -/
def updateModelsDebounceWait : Nat := 500

/-- Modelled from the spec: the `p-debounce` wrapper around `updateModels`
(line 91) is third-party library code not present in this repository, so its
scheduling behaviour is taken from the specification (section 4.5): trigger
calls arriving within `wait` time units of each other collapse into one
execution that starts only after the window elapses with no further
triggers, and a trigger arriving while a run is executing has its window
evaluated only after that run finishes (`free` is the completion time of the
run in progress).  `sched wait dur triggers free i` returns the list of
`(start, finish)` intervals of the executed runs, where `dur i` is the
duration of the `i`-th run. -/
def sched (wait : Nat) (dur : Nat → Nat) :
    List Nat → Nat → Nat → List (Nat × Nat)
  | [], _, _ => []
  | [t], free, i => [(Nat.max t free + wait, Nat.max t free + wait + dur i)]
  | t :: t' :: rest, free, i =>
    if t' < Nat.max t free + wait then
      sched wait dur (t' :: rest) free i
    else
      (Nat.max t free + wait, Nat.max t free + wait + dur i) ::
        sched wait dur (t' :: rest) (Nat.max t free + wait + dur i) (i + 1)

/-- Run the scheduled reconciliation passes in order, threading the model
map from one pass to the next; each pass samples the workspace roots and
the collaborator environment at its start time. -/
def runPasses (rootsAt : Nat → List String)
    (envAtTime : Nat → String → SketchEnv) :
    List (Nat × Nat) → ModelMap → List PassResult
  | [], _ => []
  | (b, _) :: rest, m =>
    updateModelsPass (envAtTime b) m (rootsAt b) ::
      runPasses rootsAt envAtTime rest (updateModelsPass (envAtTime b) m (rootsAt b)).models

/-- The debounced `updateModels` entry point over a whole trigger schedule:
the passes that actually execute, given trigger times, per-run durations,
and the time-indexed workspace-root list and environment. -/
def debouncedUpdateModels (dur : Nat → Nat) (triggers : List Nat)
    (rootsAt : Nat → List String) (envAtTime : Nat → String → SketchEnv)
    (models₀ : ModelMap) : List PassResult :=
  runPasses rootsAt envAtTime (sched updateModelsDebounceWait dur triggers 0 0) models₀

/-! ### Map helper lemmas -/

theorem hasKey_cons (p : String × Model) (t : ModelMap) (k : String) :
    hasKey (p :: t) k = ((p.1 == k) || hasKey t k) := rfl

theorem lookupModel_cons_of_ne {p : String × Model} (t : ModelMap) {k : String}
    (h : (p.1 == k) = false) : lookupModel (p :: t) k = lookupModel t k := by
  simp [lookupModel, h]

theorem lookupModel_cons_self {p : String × Model} (t : ModelMap) {k : String}
    (h : (p.1 == k) = true) : lookupModel (p :: t) k = some p.2 := by
  simp [lookupModel, h]

theorem hasKey_append (l l' : ModelMap) (k : String) :
    hasKey (l ++ l') k = (hasKey l k || hasKey l' k) := by
  induction l with
  | nil => simp [hasKey]
  | cons p t ih => simp [List.cons_append, hasKey_cons, ih, Bool.or_assoc]

theorem lookupModel_append_left {l : ModelMap} (l' : ModelMap) {k : String}
    {m : Model} (h : lookupModel l k = some m) :
    lookupModel (l ++ l') k = some m := by
  induction l with
  | nil => simp [lookupModel] at h
  | cons p t ih =>
    rcases hpk : (p.1 == k) with _ | _
    · rw [lookupModel_cons_of_ne t hpk] at h
      rw [List.cons_append, lookupModel_cons_of_ne _ hpk]
      exact ih h
    · rw [lookupModel_cons_self t hpk] at h
      rw [List.cons_append, lookupModel_cons_self _ hpk]
      exact h

theorem lookupModel_append_new {l : ModelMap} {k : String}
    (h : hasKey l k = false) (m : Model) :
    lookupModel (l ++ [(k, m)]) k = some m := by
  induction l with
  | nil => simp [lookupModel]
  | cons p t ih =>
    rw [hasKey_cons, Bool.or_eq_false_iff] at h
    rw [List.cons_append, lookupModel_cons_of_ne _ h.1]
    exact ih h.2

theorem hasKey_iff_lookup_isSome (l : ModelMap) (k : String) :
    hasKey l k = true ↔ (lookupModel l k).isSome := by
  induction l with
  | nil => simp [hasKey, lookupModel]
  | cons p t ih =>
    rcases hpk : (p.1 == k) with _ | _
    · rw [hasKey_cons, hpk, Bool.false_or, lookupModel_cons_of_ne t hpk]
      exact ih
    · rw [hasKey_cons, hpk, Bool.true_or, lookupModel_cons_self t hpk]
      simp

theorem lookupModel_filter_keep {l : ModelMap} {dead : List String}
    {k : String} (h : dead.contains k = false) :
    lookupModel (l.filter (fun p => !dead.contains p.1)) k = lookupModel l k := by
  induction l with
  | nil => simp
  | cons p t ih =>
    rcases hdp : dead.contains p.1 with _ | _
    · have hkeep : (!dead.contains p.1) = true := by rw [hdp]; rfl
      rw [@List.filter_cons_of_pos _ (fun q : String × Model => !dead.contains q.1) p t hkeep]
      rcases hpk : (p.1 == k) with _ | _
      · rw [lookupModel_cons_of_ne _ hpk, lookupModel_cons_of_ne t hpk]
        exact ih
      · rw [lookupModel_cons_self _ hpk, lookupModel_cons_self t hpk]
    · have hdrop : ¬ (!dead.contains p.1) = true := by rw [hdp]; simp
      rw [@List.filter_cons_of_neg _ (fun q : String × Model => !dead.contains q.1) p t hdrop]
      have hpk : (p.1 == k) = false := by
        rcases hx : (p.1 == k) with _ | _
        · rfl
        · have hke : p.1 = k := eq_of_beq hx
          rw [hke] at hdp
          rw [hdp] at h
          cases h
      rw [ih, lookupModel_cons_of_ne t hpk]

theorem hasKey_filter_out {l : ModelMap} {dead : List String}
    {k : String} (h : dead.contains k = true) :
    hasKey (l.filter (fun p => !dead.contains p.1)) k = false := by
  induction l with
  | nil => simp [hasKey]
  | cons p t ih =>
    rcases hdp : dead.contains p.1 with _ | _
    · have hkeep : (!dead.contains p.1) = true := by rw [hdp]; rfl
      rw [@List.filter_cons_of_pos _ (fun q : String × Model => !dead.contains q.1) p t hkeep]
      have hpk : (p.1 == k) = false := by
        rcases hx : (p.1 == k) with _ | _
        · rfl
        · have hke : p.1 = k := eq_of_beq hx
          rw [hke] at hdp
          rw [h] at hdp
          cases hdp
      rw [hasKey_cons, hpk, Bool.false_or]
      exact ih
    · have hdrop : ¬ (!dead.contains p.1) = true := by rw [hdp]; simp
      rw [@List.filter_cons_of_neg _ (fun q : String × Model => !dead.contains q.1) p t hdrop]
      exact ih

theorem hasKey_filter_keep {l : ModelMap} {dead : List String}
    {k : String} (h : dead.contains k = false) :
    hasKey (l.filter (fun p => !dead.contains p.1)) k = hasKey l k := by
  rcases hh : hasKey l k with _ | _
  · rw [Bool.eq_false_iff]
    intro hc
    rw [hasKey_iff_lookup_isSome, lookupModel_filter_keep h,
      ← hasKey_iff_lookup_isSome, hh] at hc
    cases hc
  · rw [hasKey_iff_lookup_isSome, lookupModel_filter_keep h,
      ← hasKey_iff_lookup_isSome]
    exact hh

/-! ### Creation-loop invariants -/

theorem createLoop_lookup_mono (envAt : String → SketchEnv)
    (roots : List String) (s : LoopState) {k : String} {m : Model}
    (h : lookupModel s.models k = some m) :
    lookupModel (createLoop envAt roots s).models k = some m := by
  induction roots generalizing s with
  | nil => exact h
  | cons key rest ih =>
    rw [createLoop]
    rcases hk : hasKey s.models key with _ | _
    · rw [if_neg Bool.false_ne_true]
      cases hres : (getTempLaunchJsonContent (envAt key)).result with
      | error e => exact h
      | ok t =>
        cases t with
        | noSketch => exact ih _ h
        | missing u => exact ih _ (lookupModel_append_left _ h)
        | present c => exact ih _ (lookupModel_append_left _ h)
    · rw [if_pos rfl]
      exact ih _ h

theorem createLoop_hasKey_mono (envAt : String → SketchEnv)
    (roots : List String) (s : LoopState) {k : String}
    (h : hasKey s.models k = true) :
    hasKey (createLoop envAt roots s).models k = true := by
  induction roots generalizing s with
  | nil => exact h
  | cons key rest ih =>
    rw [createLoop]
    rcases hk : hasKey s.models key with _ | _
    · rw [if_neg Bool.false_ne_true]
      cases hres : (getTempLaunchJsonContent (envAt key)).result with
      | error e => exact h
      | ok t =>
        cases t with
        | noSketch => exact ih _ h
        | missing u =>
          exact ih _ (show hasKey (s.models ++ [(key, ⟨key, [], none⟩)]) k = true by
            rw [hasKey_append, h, Bool.true_or])
        | present c =>
          exact ih _ (show hasKey (s.models ++ [(key, ⟨key, c.configurations, some c.uri⟩)]) k = true by
            rw [hasKey_append, h, Bool.true_or])
    · rw [if_pos rfl]
      exact ih _ h

theorem createLoop_hasKey_new (envAt : String → SketchEnv)
    (roots : List String) (s : LoopState) {k : String}
    (h : hasKey (createLoop envAt roots s).models k = true) :
    hasKey s.models k = true ∨ k ∈ roots := by
  induction roots generalizing s with
  | nil => exact Or.inl h
  | cons key rest ih =>
    rw [createLoop] at h
    rcases hk : hasKey s.models key with _ | _ <;> rw [hk] at h
    · rw [if_neg Bool.false_ne_true] at h
      cases hres : (getTempLaunchJsonContent (envAt key)).result with
      | error e =>
        rw [hres] at h
        exact Or.inl h
      | ok t =>
        cases t with
        | noSketch =>
          rw [hres] at h
          rcases ih _ h with h' | h'
          · exact Or.inl h'
          · exact Or.inr (List.mem_cons_of_mem _ h')
        | missing u =>
          rw [hres] at h
          rcases ih _ h with h' | h'
          · rw [hasKey_append] at h'
            rcases Bool.or_eq_true_iff.mp h' with h'' | h''
            · exact Or.inl h''
            · rw [hasKey_cons] at h''
              rcases Bool.or_eq_true_iff.mp h'' with h3 | h3
              · have hkk : key = k := eq_of_beq h3
                exact Or.inr (hkk ▸ List.mem_cons_self _ _)
              · simp [hasKey] at h3
          · exact Or.inr (List.mem_cons_of_mem _ h')
        | present c =>
          rw [hres] at h
          rcases ih _ h with h' | h'
          · rw [hasKey_append] at h'
            rcases Bool.or_eq_true_iff.mp h' with h'' | h''
            · exact Or.inl h''
            · rw [hasKey_cons] at h''
              rcases Bool.or_eq_true_iff.mp h'' with h3 | h3
              · have hkk : key = k := eq_of_beq h3
                exact Or.inr (hkk ▸ List.mem_cons_self _ _)
              · simp [hasKey] at h3
          · exact Or.inr (List.mem_cons_of_mem _ h')
    · rw [if_pos rfl] at h
      rcases ih _ h with h' | h'
      · exact Or.inl h'
      · exact Or.inr (List.mem_cons_of_mem _ h')

theorem createLoop_skipped_mono (envAt : String → SketchEnv)
    (roots : List String) (s : LoopState) {k : String}
    (h : k ∈ s.skippedKeys) :
    k ∈ (createLoop envAt roots s).skippedKeys := by
  induction roots generalizing s with
  | nil => exact h
  | cons key rest ih =>
    rw [createLoop]
    rcases hk : hasKey s.models key with _ | _
    · rw [if_neg Bool.false_ne_true]
      cases hres : (getTempLaunchJsonContent (envAt key)).result with
      | error e => exact h
      | ok t =>
        cases t with
        | noSketch => exact ih _ (List.mem_append_left _ h)
        | missing u => exact ih _ h
        | present c => exact ih _ h
    · rw [if_pos rfl]
      exact ih _ h

theorem createLoop_skipped_spec (envAt : String → SketchEnv)
    (roots : List String) (s : LoopState) {k : String}
    (h : k ∈ (createLoop envAt roots s).skippedKeys) :
    k ∈ s.skippedKeys ∨ (k ∈ roots ∧ hasKey s.models k = false) := by
  induction roots generalizing s with
  | nil => exact Or.inl h
  | cons key rest ih =>
    rw [createLoop] at h
    rcases hk : hasKey s.models key with _ | _ <;> rw [hk] at h
    · rw [if_neg Bool.false_ne_true] at h
      cases hres : (getTempLaunchJsonContent (envAt key)).result with
      | error e =>
        rw [hres] at h
        exact Or.inl h
      | ok t =>
        cases t with
        | noSketch =>
          rw [hres] at h
          rcases ih _ h with h' | h'
          · rcases List.mem_append.mp h' with h'' | h''
            · exact Or.inl h''
            · have hkk : k = key := List.mem_singleton.mp h''
              exact Or.inr ⟨hkk ▸ List.mem_cons_self _ _, hkk ▸ hk⟩
          · exact Or.inr ⟨List.mem_cons_of_mem _ h'.1, h'.2⟩
        | missing u =>
          rw [hres] at h
          rcases ih _ h with h' | h'
          · exact Or.inl h'
          · rw [hasKey_append, Bool.or_eq_false_iff] at h'
            · exact Or.inr ⟨List.mem_cons_of_mem _ h'.1, h'.2.1⟩
        | present c =>
          rw [hres] at h
          rcases ih _ h with h' | h'
          · exact Or.inl h'
          · rw [hasKey_append, Bool.or_eq_false_iff] at h'
            · exact Or.inr ⟨List.mem_cons_of_mem _ h'.1, h'.2.1⟩
    · rw [if_pos rfl] at h
      rcases ih _ h with h' | h'
      · exact Or.inl h'
      · exact Or.inr ⟨List.mem_cons_of_mem _ h'.1, h'.2⟩

theorem createLoop_error_eq_of_ok (envAt : String → SketchEnv)
    (roots : List String) (s : LoopState)
    (hall : ∀ k ∈ roots, (getTempLaunchJsonContent (envAt k)).result.isOk = true) :
    (createLoop envAt roots s).error = s.error := by
  induction roots generalizing s with
  | nil => rfl
  | cons key rest ih =>
    rw [createLoop]
    rcases hk : hasKey s.models key with _ | _
    · rw [if_neg Bool.false_ne_true]
      cases hres : (getTempLaunchJsonContent (envAt key)).result with
      | error e =>
        have := hall key (List.mem_cons_self _ _)
        rw [hres] at this
        cases this
      | ok t =>
        cases t with
        | noSketch => exact ih _ (fun k' hk' => hall k' (List.mem_cons_of_mem _ hk'))
        | missing u => exact ih _ (fun k' hk' => hall k' (List.mem_cons_of_mem _ hk'))
        | present c => exact ih _ (fun k' hk' => hall k' (List.mem_cons_of_mem _ hk'))
    · rw [if_pos rfl]
      exact ih _ (fun k' hk' => hall k' (List.mem_cons_of_mem _ hk'))

theorem createLoop_covered (envAt : String → SketchEnv)
    (roots : List String) (s : LoopState) {k : String}
    (herr : (createLoop envAt roots s).error = none)
    (hmem : k ∈ roots)
    (hskip : k ∉ (createLoop envAt roots s).skippedKeys) :
    hasKey (createLoop envAt roots s).models k = true := by
  induction roots generalizing s with
  | nil => cases hmem
  | cons key rest ih =>
    rw [createLoop] at herr hskip ⊢
    rcases hk : hasKey s.models key with _ | _ <;> rw [hk] at herr hskip
    · rw [if_neg Bool.false_ne_true] at herr hskip ⊢
      cases hres : (getTempLaunchJsonContent (envAt key)).result with
      | error e =>
        rw [hres] at herr
        exact Option.noConfusion herr
      | ok t =>
        cases t with
        | noSketch =>
          rw [hres] at herr hskip
          rcases List.mem_cons.mp hmem with hkk | hmem'
          · exfalso
            apply hskip
            exact createLoop_skipped_mono _ _ _
              (List.mem_append_right _ (List.mem_singleton.mpr hkk))
          · exact ih _ herr hmem' hskip
        | missing u =>
          rw [hres] at herr hskip
          rcases List.mem_cons.mp hmem with hkk | hmem'
          · apply createLoop_hasKey_mono
            rw [hasKey_append, hasKey_cons]
            have hbk : (key == k) = true := by rw [hkk]; exact beq_self_eq_true _
            rw [hbk]
            simp
          · exact ih _ herr hmem' hskip
        | present c =>
          rw [hres] at herr hskip
          rcases List.mem_cons.mp hmem with hkk | hmem'
          · apply createLoop_hasKey_mono
            rw [hasKey_append, hasKey_cons]
            have hbk : (key == k) = true := by rw [hkk]; exact beq_self_eq_true _
            rw [hbk]
            simp
          · exact ih _ herr hmem' hskip
    · rw [if_pos rfl] at herr hskip ⊢
      rcases List.mem_cons.mp hmem with hkk | hmem'
      · exact createLoop_hasKey_mono _ _ _ (by rw [hkk]; exact hk)
      · exact ih _ herr hmem' hskip

theorem createLoop_skipped_new_not_hasKey (envAt : String → SketchEnv)
    (roots : List String) (s : LoopState) {k : String}
    (hnd : roots.Nodup)
    (hmem : k ∈ (createLoop envAt roots s).skippedKeys)
    (hnot : k ∉ s.skippedKeys) :
    hasKey (createLoop envAt roots s).models k = false := by
  induction roots generalizing s with
  | nil => exact absurd hmem hnot
  | cons key rest ih =>
    have hndr : rest.Nodup := (List.nodup_cons.mp hnd).2
    have hkey : key ∉ rest := (List.nodup_cons.mp hnd).1
    rw [createLoop] at hmem ⊢
    rcases hk : hasKey s.models key with _ | _ <;> rw [hk] at hmem
    · rw [if_neg Bool.false_ne_true] at hmem ⊢
      cases hres : (getTempLaunchJsonContent (envAt key)).result with
      | error e =>
        rw [hres] at hmem
        exact absurd hmem hnot
      | ok t =>
        cases t with
        | noSketch =>
          rw [hres] at hmem
          by_cases hkk : k = key
          · by_contra hc
            have hc' := Bool.of_not_eq_false hc
            rcases createLoop_hasKey_new envAt rest _ hc' with h' | h'
            · have h'' : hasKey s.models k = true := h'
              rw [hkk, hk] at h''
              cases h''
            · rw [hkk] at h'
              exact hkey h'
          · have hnot' : k ∉ s.skippedKeys ++ [key] := by
              intro hc
              rcases List.mem_append.mp hc with hc' | hc'
              · exact hnot hc'
              · exact hkk (List.mem_singleton.mp hc')
            exact ih _ hndr hmem hnot'
        | missing u =>
          rw [hres] at hmem
          exact ih _ hndr hmem hnot
        | present c =>
          rw [hres] at hmem
          exact ih _ hndr hmem hnot
    · rw [if_pos rfl] at hmem ⊢
      exact ih _ hndr hmem hnot

theorem createLoop_error_stops (envAt : String → SketchEnv)
    (roots : List String) (s : LoopState) {k : String} {e : JsError}
    (hmem : k ∈ roots)
    (hread : (getTempLaunchJsonContent (envAt k)).result = .error e)
    (hnew : hasKey s.models k = false) :
    (createLoop envAt roots s).error.isSome = true ∧
    hasKey (createLoop envAt roots s).models k = false := by
  induction roots generalizing s with
  | nil => cases hmem
  | cons key rest ih =>
    rw [createLoop]
    rcases hk : hasKey s.models key with _ | _
    · rw [if_neg Bool.false_ne_true]
      cases hres : (getTempLaunchJsonContent (envAt key)).result with
      | error e' => exact ⟨rfl, hnew⟩
      | ok t =>
        have hkk : k ≠ key := by
          intro hkeq
          rw [hkeq, hres] at hread
          cases hread
        have hmem' : k ∈ rest := by
          rcases List.mem_cons.mp hmem with h' | h'
          · exact absurd h' hkk
          · exact h'
        cases t with
        | noSketch => exact ih _ hmem' hnew
        | missing u =>
          refine ih _ hmem' ?_
          rw [hasKey_append, hnew, Bool.false_or, hasKey_cons]
          have hb : (key == k) = false := beq_eq_false_iff_ne.mpr (fun h' => hkk h'.symm)
          rw [hb]
          rfl
        | present c =>
          refine ih _ hmem' ?_
          rw [hasKey_append, hnew, Bool.false_or, hasKey_cons]
          have hb : (key == k) = false := beq_eq_false_iff_ne.mpr (fun h' => hkk h'.symm)
          rw [hb]
          rfl
    · rw [if_pos rfl]
      have hkk : k ≠ key := by
        intro hkeq
        rw [hkeq] at hnew
        rw [hnew] at hk
        cases hk
      have hmem' : k ∈ rest := by
        rcases List.mem_cons.mp hmem with h' | h'
        · exact absurd h' hkk
        · exact h'
      exact ih _ hmem' hnew

theorem createLoop_missing_lookup (envAt : String → SketchEnv)
    (roots : List String) (s : LoopState) {k : String} (u : String → String)
    (hall : ∀ k' ∈ roots,
      (getTempLaunchJsonContent (envAt k')).result = .ok (.missing (u k')))
    (hmem : k ∈ roots)
    (hnew : hasKey s.models k = false) :
    lookupModel (createLoop envAt roots s).models k = some ⟨k, [], none⟩ := by
  induction roots generalizing s with
  | nil => cases hmem
  | cons key rest ih =>
    rw [createLoop]
    rcases hk : hasKey s.models key with _ | _
    · rw [if_neg Bool.false_ne_true]
      cases hres : (getTempLaunchJsonContent (envAt key)).result with
      | error e =>
        have hx := hall key (List.mem_cons_self _ _)
        rw [hres] at hx
        cases hx
      | ok t =>
        cases t with
        | noSketch =>
          have hx := hall key (List.mem_cons_self _ _)
          rw [hres] at hx
          cases hx
        | missing u' =>
          by_cases hkk : k = key
          · subst hkk
            apply createLoop_lookup_mono
            exact lookupModel_append_new hnew _
          · have hmem' : k ∈ rest := by
              rcases List.mem_cons.mp hmem with h' | h'
              · exact absurd h' hkk
              · exact h'
            refine ih _ (fun k' hk' => hall k' (List.mem_cons_of_mem _ hk')) hmem' ?_
            rw [hasKey_append, hnew, Bool.false_or, hasKey_cons]
            have hb : (key == k) = false := beq_eq_false_iff_ne.mpr (fun h' => hkk h'.symm)
            rw [hb]
            rfl
        | present c =>
          have hx := hall key (List.mem_cons_self _ _)
          rw [hres] at hx
          cases hx
    · rw [if_pos rfl]
      have hkk : k ≠ key := by
        intro hkeq
        rw [hkeq] at hnew
        rw [hnew] at hk
        cases hk
      have hmem' : k ∈ rest := by
        rcases List.mem_cons.mp hmem with h' | h'
        · exact absurd h' hkk
        · exact h'
      exact ih _ (fun k' hk' => hall k' (List.mem_cons_of_mem _ hk')) hmem' hnew

theorem createLoop_ok_covered (envAt : String → SketchEnv)
    (roots : List String) (s : LoopState) {k : String}
    (hall : ∀ k' ∈ roots, (getTempLaunchJsonContent (envAt k')).result.isOk = true)
    (hmem : k ∈ roots)
    (hns : (getTempLaunchJsonContent (envAt k)).result ≠ .ok .noSketch) :
    hasKey (createLoop envAt roots s).models k = true := by
  induction roots generalizing s with
  | nil => cases hmem
  | cons key rest ih =>
    rw [createLoop]
    rcases hk : hasKey s.models key with _ | _
    · rw [if_neg Bool.false_ne_true]
      cases hres : (getTempLaunchJsonContent (envAt key)).result with
      | error e =>
        have hx := hall key (List.mem_cons_self _ _)
        rw [hres] at hx
        cases hx
      | ok t =>
        have hallr : ∀ k' ∈ rest, (getTempLaunchJsonContent (envAt k')).result.isOk = true :=
          fun k' hk' => hall k' (List.mem_cons_of_mem _ hk')
        cases t with
        | noSketch =>
          have hkk : k ≠ key := by
            intro hkeq
            rw [hkeq] at hns
            exact hns hres
          have hmem' : k ∈ rest := by
            rcases List.mem_cons.mp hmem with h' | h'
            · exact absurd h' hkk
            · exact h'
          exact ih _ hallr hmem'
        | missing u =>
          by_cases hkk : k = key
          · apply createLoop_hasKey_mono
            rw [hasKey_append, hasKey_cons]
            have hb : (key == k) = true := by rw [hkk]; exact beq_self_eq_true _
            rw [hb]
            simp
          · have hmem' : k ∈ rest := by
              rcases List.mem_cons.mp hmem with h' | h'
              · exact absurd h' hkk
              · exact h'
            exact ih _ hallr hmem'
        | present c =>
          by_cases hkk : k = key
          · apply createLoop_hasKey_mono
            rw [hasKey_append, hasKey_cons]
            have hb : (key == k) = true := by rw [hkk]; exact beq_self_eq_true _
            rw [hb]
            simp
          · have hmem' : k ∈ rest := by
              rcases List.mem_cons.mp hmem with h' | h'
              · exact absurd h' hkk
              · exact h'
            exact ih _ hallr hmem'
    · rw [if_pos rfl]
      rcases List.mem_cons.mp hmem with hkk | hmem'
      · exact createLoop_hasKey_mono _ _ _ (by rw [hkk]; exact hk)
      · exact ih _ (fun k' hk' => hall k' (List.mem_cons_of_mem _ hk')) hmem'

theorem createLoop_append (envAt : String → SketchEnv)
    (l₁ l₂ : List String) (s : LoopState)
    (h : ∀ k ∈ l₁, (getTempLaunchJsonContent (envAt k)).result.isOk = true) :
    createLoop envAt (l₁ ++ l₂) s = createLoop envAt l₂ (createLoop envAt l₁ s) := by
  induction l₁ generalizing s with
  | nil => rfl
  | cons key rest ih =>
    rw [List.cons_append, createLoop, createLoop]
    rcases hk : hasKey s.models key with _ | _
    · rw [if_neg Bool.false_ne_true, if_neg Bool.false_ne_true]
      cases hres : (getTempLaunchJsonContent (envAt key)).result with
      | error e =>
        have hx := h key (List.mem_cons_self _ _)
        rw [hres] at hx
        cases hx
      | ok t =>
        cases t with
        | noSketch => exact ih _ (fun k' hk' => h k' (List.mem_cons_of_mem _ hk'))
        | missing u => exact ih _ (fun k' hk' => h k' (List.mem_cons_of_mem _ hk'))
        | present c => exact ih _ (fun k' hk' => h k' (List.mem_cons_of_mem _ hk'))
    · rw [if_pos rfl, if_pos rfl]
      exact ih _ (fun k' hk' => h k' (List.mem_cons_of_mem _ hk'))

theorem createLoop_attempted (envAt : String → SketchEnv)
    (roots : List String) (s : LoopState)
    (hnd : roots.Nodup)
    (hall : ∀ k ∈ roots, (getTempLaunchJsonContent (envAt k)).result.isOk = true) :
    (createLoop envAt roots s).attemptedKeys =
      s.attemptedKeys ++ roots.filter (fun k => !hasKey s.models k) := by
  induction roots generalizing s with
  | nil => rw [createLoop]; simp
  | cons key rest ih =>
    have hndr : rest.Nodup := (List.nodup_cons.mp hnd).2
    have hkey : key ∉ rest := (List.nodup_cons.mp hnd).1
    have hallr : ∀ k' ∈ rest, (getTempLaunchJsonContent (envAt k')).result.isOk = true :=
      fun k' hk' => hall k' (List.mem_cons_of_mem _ hk')
    rw [createLoop]
    rcases hk : hasKey s.models key with _ | _
    · rw [if_neg Bool.false_ne_true]
      have hfc : List.filter (fun k => !hasKey s.models k) (key :: rest) =
          key :: List.filter (fun k => !hasKey s.models k) rest := by
        apply List.filter_cons_of_pos
        rw [hk]
        rfl
      cases hres : (getTempLaunchJsonContent (envAt key)).result with
      | error e =>
        have hx := hall key (List.mem_cons_self _ _)
        rw [hres] at hx
        cases hx
      | ok t =>
        cases t with
        | noSketch =>
          rw [ih _ hndr hallr, hfc]
          simp
        | missing u =>
          rw [ih _ hndr hallr, hfc]
          have hfilt : List.filter
              (fun k => !hasKey (s.models ++ [(key, ⟨key, [], none⟩)]) k) rest =
              List.filter (fun k => !hasKey s.models k) rest := by
            apply List.filter_congr
            intro x hx
            rw [hasKey_append, hasKey_cons]
            have hb : (key == x) = false :=
              beq_eq_false_iff_ne.mpr (fun h' => hkey (h' ▸ hx))
            rw [hb]
            simp [hasKey]
          rw [hfilt]
          simp
        | present c =>
          rw [ih _ hndr hallr, hfc]
          have hfilt : List.filter
              (fun k => !hasKey (s.models ++ [(key, ⟨key, c.configurations, some c.uri⟩)]) k) rest =
              List.filter (fun k => !hasKey s.models k) rest := by
            apply List.filter_congr
            intro x hx
            rw [hasKey_append, hasKey_cons]
            have hb : (key == x) = false :=
              beq_eq_false_iff_ne.mpr (fun h' => hkey (h' ▸ hx))
            rw [hb]
            simp [hasKey]
          rw [hfilt]
          simp
    · rw [if_pos rfl]
      have hfc : List.filter (fun k => !hasKey s.models k) (key :: rest) =
          List.filter (fun k => !hasKey s.models k) rest := by
        apply List.filter_cons_of_neg
        rw [hk]
        simp
      rw [ih _ hndr hallr, hfc]

/-! ### Claim theorems -/

/-- C3 -- For every call to `getTempLaunchJsonContent` with a valid current
project, if reading the file fails with the distinguished file-not-found
error kind, the call returns the `missing` sentinel carrying the temp folder
URI normally: it neither throws nor logs an error. -/
theorem read_fileNotFound_returns_missing (env : SketchEnv)
    (hsk : env.sketchValid = true)
    (hcf : env.createFolderResult = .ok ())
    (hrd : env.readFileResult = .error (.fileOperationError .FILE_NOT_FOUND)) :
    (getTempLaunchJsonContent env).result = .ok (.missing env.tempFolderUri) ∧
    (getTempLaunchJsonContent env).logs = 0 := by
  simp [getTempLaunchJsonContent, tryReadParse, isFileNotFoundError, hsk, hcf, hrd]

theorem read_fileNotFound_returns_missing_witness :
    (getTempLaunchJsonContent
        ⟨true, "/tmp/sketch", .ok (), .error (.fileOperationError .FILE_NOT_FOUND),
         fun _ => .ok []⟩).result = .ok (.missing "/tmp/sketch") ∧
    (getTempLaunchJsonContent
        ⟨true, "/tmp/sketch", .ok (), .error (.fileOperationError .FILE_NOT_FOUND),
         fun _ => .ok []⟩).logs = 0 :=
  read_fileNotFound_returns_missing
    ⟨true, "/tmp/sketch", .ok (), .error (.fileOperationError .FILE_NOT_FOUND),
     fun _ => .ok []⟩ rfl rfl rfl

/-- C6 counterexample -- a folder-creation failure is re-raised to the caller
with zero `console.error` calls: `createFolder` is awaited outside the
`try` block (line 136), so its failure bypasses the logging `catch` and,
contrary to the claim, is propagated silently. -/
theorem folderCreation_error_unlogged_cex :
    (getTempLaunchJsonContent
        ⟨true, "/tmp/sketch", .error (.otherError "disk full"), .ok "",
         fun _ => .ok []⟩).result = .error (.otherError "disk full") ∧
    (getTempLaunchJsonContent
        ⟨true, "/tmp/sketch", .error (.otherError "disk full"), .ok "",
         fun _ => .ok []⟩).logs = 0 := by
  constructor <;> rfl

/-- C6 amended -- with a valid current project: a caught non-file-not-found
failure of the read/parse step is logged exactly once before being
re-raised, while a folder-creation failure is re-raised to the caller
without any log from this operation (it occurs outside the `try`/`catch`). -/
theorem error_logging_policy (env : SketchEnv)
    (hsk : env.sketchValid = true) :
    (∀ e, env.createFolderResult = .error e →
      (getTempLaunchJsonContent env).result = .error e ∧
      (getTempLaunchJsonContent env).logs = 0) ∧
    (∀ e, env.createFolderResult = .ok () → tryReadParse env = .error e →
      isFileNotFoundError e = false →
      (getTempLaunchJsonContent env).result = .error e ∧
      (getTempLaunchJsonContent env).logs = 1) := by
  constructor
  · intro e hcf
    simp [getTempLaunchJsonContent, hsk, hcf]
  · intro e hcf htr hnf
    simp [getTempLaunchJsonContent, hsk, hcf, htr, hnf]

theorem error_logging_policy_witness :
    (true : Bool) = true ∧
    ((∀ e, (Except.error (.otherError "boom") : Except JsError Unit) = .error e →
      (getTempLaunchJsonContent
          ⟨true, "/t", .error (.otherError "boom"), .ok "", fun _ => .ok []⟩).result
        = .error e ∧
      (getTempLaunchJsonContent
          ⟨true, "/t", .error (.otherError "boom"), .ok "", fun _ => .ok []⟩).logs
        = 0) ∧
    (∀ e, (Except.error (.otherError "boom") : Except JsError Unit) = .ok () →
      tryReadParse ⟨true, "/t", .error (.otherError "boom"), .ok "", fun _ => .ok []⟩
        = .error e →
      isFileNotFoundError e = false →
      (getTempLaunchJsonContent
          ⟨true, "/t", .error (.otherError "boom"), .ok "", fun _ => .ok []⟩).result
        = .error e ∧
      (getTempLaunchJsonContent
          ⟨true, "/t", .error (.otherError "boom"), .ok "", fun _ => .ok []⟩).logs
        = 1)) :=
  ⟨rfl, error_logging_policy
    ⟨true, "/t", .error (.otherError "boom"), .ok "", fun _ => .ok []⟩ rfl⟩

/-- C2 -- For every batch of file-change events: if some event's base name is
exactly `launch.json` and its parent folder's base name matches the resolved
temp folder name case-insensitively, exactly one re-read is triggered and,
when the re-read yields a `present` content, exactly one
`onTempContentDidChange` notification fires carrying that content (none when
it does not); a batch with no matching event triggers no re-read and no
notification. -/
theorem watcher_single_reread_and_fire (env : SketchEnv) (folderBase : String)
    (changes : List FileChange) :
    ((∃ c ∈ changes, isLaunchJsonChange (normalizedTempFolderName folderBase) c = true) →
      (handleFilesChange env (normalizedTempFolderName folderBase) changes).rereads = 1 ∧
      (∀ jc, (getTempLaunchJsonContent env).result = .ok (.present jc) →
        (handleFilesChange env (normalizedTempFolderName folderBase) changes).fired = [jc]) ∧
      ((∀ jc, (getTempLaunchJsonContent env).result ≠ .ok (.present jc)) →
        (handleFilesChange env (normalizedTempFolderName folderBase) changes).fired = [])) ∧
    ((∀ c ∈ changes, isLaunchJsonChange (normalizedTempFolderName folderBase) c = false) →
      (handleFilesChange env (normalizedTempFolderName folderBase) changes).rereads = 0 ∧
      (handleFilesChange env (normalizedTempFolderName folderBase) changes).fired = []) := by
  constructor
  · intro hex
    obtain ⟨c, hc, hmatch⟩ := hex
    have hfind : (changes.find? (isLaunchJsonChange (normalizedTempFolderName folderBase))).isSome := by
      rcases List.find?_isSome.mpr ⟨c, hc, hmatch⟩ with h
      exact h
    obtain ⟨c', hc'⟩ := Option.isSome_iff_exists.mp hfind
    refine ⟨?_, ?_, ?_⟩
    · simp only [handleFilesChange, hc']
      cases hres : (getTempLaunchJsonContent env).result with
      | error e => simp
      | ok t => cases t <;> simp
    · intro jc hjc
      simp only [handleFilesChange, hc', hjc]
    · intro hnot
      cases hres : (getTempLaunchJsonContent env).result with
      | error e => simp [handleFilesChange, hc', hres]
      | ok t =>
        cases t with
        | noSketch => simp [handleFilesChange, hc', hres]
        | missing u => simp [handleFilesChange, hc', hres]
        | present jc => exact absurd hres (hnot jc)
  · intro hall
    have hfind : changes.find? (isLaunchJsonChange (normalizedTempFolderName folderBase)) = none := by
      apply List.find?_eq_none.mpr
      intro c hc
      simp [hall c hc]
    simp [handleFilesChange, hfind]

theorem watcher_single_reread_and_fire_witness :
    ((∃ c ∈ [FileChange.mk "launch.json" "ARDUINO-Temp"],
        isLaunchJsonChange (normalizedTempFolderName "arduino-temp") c = true) →
      (handleFilesChange
          ⟨true, "/t/arduino-temp", .ok (), .ok "x", fun _ => .ok []⟩
          (normalizedTempFolderName "arduino-temp")
          [FileChange.mk "launch.json" "ARDUINO-Temp"]).rereads = 1 ∧
      (∀ jc, (getTempLaunchJsonContent
          ⟨true, "/t/arduino-temp", .ok (), .ok "x", fun _ => .ok []⟩).result
            = .ok (.present jc) →
        (handleFilesChange
            ⟨true, "/t/arduino-temp", .ok (), .ok "x", fun _ => .ok []⟩
            (normalizedTempFolderName "arduino-temp")
            [FileChange.mk "launch.json" "ARDUINO-Temp"]).fired = [jc]) ∧
      ((∀ jc, (getTempLaunchJsonContent
          ⟨true, "/t/arduino-temp", .ok (), .ok "x", fun _ => .ok []⟩).result
            ≠ .ok (.present jc)) →
        (handleFilesChange
            ⟨true, "/t/arduino-temp", .ok (), .ok "x", fun _ => .ok []⟩
            (normalizedTempFolderName "arduino-temp")
            [FileChange.mk "launch.json" "ARDUINO-Temp"]).fired = [])) ∧
    ((∀ c ∈ [FileChange.mk "launch.json" "ARDUINO-Temp"],
        isLaunchJsonChange (normalizedTempFolderName "arduino-temp") c = false) →
      (handleFilesChange
          ⟨true, "/t/arduino-temp", .ok (), .ok "x", fun _ => .ok []⟩
          (normalizedTempFolderName "arduino-temp")
          [FileChange.mk "launch.json" "ARDUINO-Temp"]).rereads = 0 ∧
      (handleFilesChange
          ⟨true, "/t/arduino-temp", .ok (), .ok "x", fun _ => .ok []⟩
          (normalizedTempFolderName "arduino-temp")
          [FileChange.mk "launch.json" "ARDUINO-Temp"]).fired = []) :=
  watcher_single_reread_and_fire
    ⟨true, "/t/arduino-temp", .ok (), .ok "x", fun _ => .ok []⟩
    "arduino-temp" [FileChange.mk "launch.json" "ARDUINO-Temp"]


theorem contains_iff_mem {l : List String} {k : String} :
    l.contains k = true ↔ k ∈ l := by
  simp [List.contains, List.elem_iff]

theorem hasKey_eq_mem_keys (l : ModelMap) (k : String) :
    hasKey l k = true ↔ k ∈ l.map Prod.fst := by
  induction l with
  | nil => simp [hasKey]
  | cons p t ih =>
    rw [hasKey_cons, List.map_cons, List.mem_cons, Bool.or_eq_true_iff, ih]
    constructor
    · rintro (h | h)
      · exact Or.inl (eq_of_beq h).symm
      · exact Or.inr h
    · rintro (h | h)
      · exact Or.inl (by rw [h]; exact beq_self_eq_true _)
      · exact Or.inr h

theorem passToDelete_not_contains {models₀ : ModelMap} {roots : List String}
    {k : String} (h : k ∈ roots) :
    (passToDelete models₀ roots).contains k = false := by
  rcases hc : (passToDelete models₀ roots).contains k with _ | _
  · rfl
  · exfalso
    have hmem := contains_iff_mem.mp hc
    have hflt := (List.mem_filter.mp hmem).2
    rw [Bool.not_eq_true'] at hflt
    rw [← contains_iff_mem] at h
    rw [h] at hflt
    cases hflt

theorem passToDelete_contains {models₀ : ModelMap} {roots : List String}
    {k : String} (hold : hasKey models₀ k = true) (h : k ∉ roots) :
    (passToDelete models₀ roots).contains k = true := by
  rw [contains_iff_mem]
  apply List.mem_filter.mpr
  refine ⟨(hasKey_eq_mem_keys _ _).mp hold, ?_⟩
  rw [← contains_iff_mem] at h
  rcases hc : roots.contains k with _ | _
  · rfl
  · exact absurd hc h

/-- C5 -- For every reconciliation pass in which the file read for a
newly-appearing root fails (parse error or any I/O error other than
file-not-found, both of which `getTempLaunchJsonContent` rethrows), no model
is created for that root and the pass rejects: its result carries the error
rather than substituting an empty configuration. -/
theorem reconcile_read_error_no_model_rejects (envAt : String → SketchEnv)
    (models₀ : ModelMap) (roots : List String) {k : String} {e : JsError}
    (hmem : k ∈ roots)
    (hnew : hasKey models₀ k = false)
    (hread : (getTempLaunchJsonContent (envAt k)).result = .error e) :
    (updateModelsPass envAt models₀ roots).error.isSome = true ∧
    hasKey (updateModelsPass envAt models₀ roots).models k = false := by
  have h := createLoop_error_stops envAt roots (initState models₀) hmem hread hnew
  rcases he : (createLoop envAt roots (initState models₀)).error with _ | e'
  · rw [he] at h
    cases h.1
  · constructor
    · simp [updateModelsPass, he]
    · simp only [updateModelsPass, he]
      exact h.2

theorem reconcile_read_error_no_model_rejects_witness :
    "r1" ∈ ["r1"] ∧
    hasKey [] "r1" = false ∧
    (getTempLaunchJsonContent
        ⟨true, "/t", .ok (), .error (.otherError "EACCES"), fun _ => .ok []⟩).result
      = .error (.otherError "EACCES") ∧
    ((updateModelsPass
        (fun _ => ⟨true, "/t", .ok (), .error (.otherError "EACCES"), fun _ => .ok []⟩)
        [] ["r1"]).error.isSome = true ∧
      hasKey (updateModelsPass
        (fun _ => ⟨true, "/t", .ok (), .error (.otherError "EACCES"), fun _ => .ok []⟩)
        [] ["r1"]).models "r1" = false) :=
  ⟨List.mem_singleton_self _, rfl, rfl,
    reconcile_read_error_no_model_rejects
      (fun _ => ⟨true, "/t", .ok (), .error (.otherError "EACCES"), fun _ => .ok []⟩)
      [] ["r1"] (List.mem_singleton_self _) rfl rfl⟩

/-- C4 -- For every reconciliation pass in which the file read for the
newly-appearing roots returns the `missing` sentinel (file not found), a
model is created and registered for each such root with an empty
configuration list and an absent (`none`) backing file URI, and the pass
completes without error (so the end-of-pass `updateCurrent()` runs). -/
theorem reconcile_missing_creates_empty_model (envAt : String → SketchEnv)
    (models₀ : ModelMap) (roots : List String) (u : String → String)
    (hall : ∀ k ∈ roots,
      (getTempLaunchJsonContent (envAt k)).result = .ok (.missing (u k))) :
    (updateModelsPass envAt models₀ roots).error = none ∧
    (updateModelsPass envAt models₀ roots).firedUpdateCurrent = true ∧
    (∀ k ∈ roots, hasKey models₀ k = false →
      lookupModel (updateModelsPass envAt models₀ roots).models k =
        some ⟨k, [], none⟩) := by
  have hallok : ∀ k ∈ roots, (getTempLaunchJsonContent (envAt k)).result.isOk = true := by
    intro k hk
    rw [hall k hk]
    rfl
  have he : (createLoop envAt roots (initState models₀)).error = none :=
    createLoop_error_eq_of_ok envAt roots (initState models₀) hallok
  refine ⟨?_, ?_, ?_⟩
  · simp [updateModelsPass, he]
  · simp [updateModelsPass, he]
  · intro k hk hnew
    have hlook := createLoop_missing_lookup envAt roots (initState models₀) u hall hk hnew
    simp only [updateModelsPass, he]
    rw [lookupModel_filter_keep (passToDelete_not_contains hk)]
    exact hlook

theorem reconcile_missing_creates_empty_model_witness :
    (∀ k ∈ ["r1"], (getTempLaunchJsonContent
        ⟨true, "/t", .ok (), .error (.fileOperationError .FILE_NOT_FOUND),
         fun _ => .ok []⟩).result = .ok (.missing "/t")) ∧
    ((updateModelsPass
        (fun _ => ⟨true, "/t", .ok (), .error (.fileOperationError .FILE_NOT_FOUND),
          fun _ => .ok []⟩) [] ["r1"]).error = none ∧
      (updateModelsPass
        (fun _ => ⟨true, "/t", .ok (), .error (.fileOperationError .FILE_NOT_FOUND),
          fun _ => .ok []⟩) [] ["r1"]).firedUpdateCurrent = true ∧
      (∀ k ∈ ["r1"], hasKey [] k = false →
        lookupModel (updateModelsPass
          (fun _ => ⟨true, "/t", .ok (), .error (.fileOperationError .FILE_NOT_FOUND),
            fun _ => .ok []⟩) [] ["r1"]).models k = some ⟨k, [], none⟩)) :=
  ⟨fun _ _ => rfl,
    reconcile_missing_creates_empty_model
      (fun _ => ⟨true, "/t", .ok (), .error (.fileOperationError .FILE_NOT_FOUND),
        fun _ => .ok []⟩) [] ["r1"] (fun _ => "/t") (fun _ _ => rfl)⟩

theorem pass_error_none_loop (envAt : String → SketchEnv)
    (models₀ : ModelMap) (roots : List String)
    (h : (updateModelsPass envAt models₀ roots).error = none) :
    (createLoop envAt roots (initState models₀)).error = none := by
  rcases he : (createLoop envAt roots (initState models₀)).error with _ | e
  · rfl
  · simp [updateModelsPass, he] at h

/-- C1 -- After every reconciliation pass that completes without error over a
workspace-root snapshot: the model map's key set equals exactly the
snapshot's root keys minus the newly-appearing roots skipped because no
project content was resolvable; the skipped roots are always newly-appearing
ones; roots already present are retained untouched; and roots absent from
the snapshot are disposed and removed. -/
theorem updateModels_reconciles_key_set (envAt : String → SketchEnv)
    (models₀ : ModelMap) (roots : List String)
    (hnd : roots.Nodup)
    (herr : (updateModelsPass envAt models₀ roots).error = none) :
    (∀ k, hasKey (updateModelsPass envAt models₀ roots).models k = true ↔
      (k ∈ roots ∧ k ∉ (updateModelsPass envAt models₀ roots).skippedKeys)) ∧
    (∀ k ∈ (updateModelsPass envAt models₀ roots).skippedKeys,
      k ∈ roots ∧ hasKey models₀ k = false) ∧
    (∀ k m, lookupModel models₀ k = some m → k ∈ roots →
      lookupModel (updateModelsPass envAt models₀ roots).models k = some m) ∧
    (∀ k, hasKey models₀ k = true → k ∉ roots →
      hasKey (updateModelsPass envAt models₀ roots).models k = false ∧
      k ∈ (updateModelsPass envAt models₀ roots).disposedKeys) := by
  have he : (createLoop envAt roots (initState models₀)).error = none :=
    pass_error_none_loop envAt models₀ roots herr
  refine ⟨?_, ?_, ?_, ?_⟩
  · intro k
    simp only [updateModelsPass, he]
    constructor
    · intro h
      rcases hd : (passToDelete models₀ roots).contains k with _ | _
      · rw [hasKey_filter_keep hd] at h
        have hn := createLoop_hasKey_new envAt roots _ h
        have hkroots : k ∈ roots := by
          rcases hn with h' | h'
          · by_contra hnr
            have h'' : hasKey models₀ k = true := h'
            have hcd := passToDelete_contains h'' hnr
            rw [hcd] at hd
            cases hd
          · exact h'
        refine ⟨hkroots, ?_⟩
        intro hskip
        have hx := createLoop_skipped_new_not_hasKey envAt roots _ hnd hskip
          (by simp [initState])
        rw [hx] at h
        cases h
      · rw [hasKey_filter_out hd] at h
        cases h
    · rintro ⟨hkroots, hskip⟩
      have hcov := createLoop_covered envAt roots _ he hkroots hskip
      rw [hasKey_filter_keep (passToDelete_not_contains hkroots)]
      exact hcov
  · intro k hk
    simp only [updateModelsPass, he] at hk
    rcases createLoop_skipped_spec envAt roots _ hk with h' | h'
    · cases h'
    · exact ⟨h'.1, h'.2⟩
  · intro k m hm hkroots
    simp only [updateModelsPass, he]
    rw [lookupModel_filter_keep (passToDelete_not_contains hkroots)]
    exact createLoop_lookup_mono envAt roots _ hm
  · intro k hold hnot
    have hd := passToDelete_contains hold hnot
    constructor
    · simp only [updateModelsPass, he]
      exact hasKey_filter_out hd
    · simp only [updateModelsPass, he]
      apply List.mem_filter.mpr
      exact ⟨contains_iff_mem.mp hd, createLoop_hasKey_mono envAt roots _ hold⟩

theorem updateModels_reconciles_key_set_witness :
    (["new"] : List String).Nodup ∧
    (updateModelsPass (fun _ => ⟨true, "/t", .ok (), .ok "x", fun _ => .ok []⟩)
      [("old", ⟨"old", [], none⟩)] ["new"]).error = none ∧
    ((∀ k, hasKey (updateModelsPass
        (fun _ => ⟨true, "/t", .ok (), .ok "x", fun _ => .ok []⟩)
        [("old", ⟨"old", [], none⟩)] ["new"]).models k = true ↔
      (k ∈ ["new"] ∧ k ∉ (updateModelsPass
        (fun _ => ⟨true, "/t", .ok (), .ok "x", fun _ => .ok []⟩)
        [("old", ⟨"old", [], none⟩)] ["new"]).skippedKeys)) ∧
    (∀ k ∈ (updateModelsPass
        (fun _ => ⟨true, "/t", .ok (), .ok "x", fun _ => .ok []⟩)
        [("old", ⟨"old", [], none⟩)] ["new"]).skippedKeys,
      k ∈ ["new"] ∧ hasKey [("old", ⟨"old", [], none⟩)] k = false) ∧
    (∀ k m, lookupModel [("old", ⟨"old", [], none⟩)] k = some m → k ∈ ["new"] →
      lookupModel (updateModelsPass
        (fun _ => ⟨true, "/t", .ok (), .ok "x", fun _ => .ok []⟩)
        [("old", ⟨"old", [], none⟩)] ["new"]).models k = some m) ∧
    (∀ k, hasKey [("old", ⟨"old", [], none⟩)] k = true → k ∉ ["new"] →
      hasKey (updateModelsPass
        (fun _ => ⟨true, "/t", .ok (), .ok "x", fun _ => .ok []⟩)
        [("old", ⟨"old", [], none⟩)] ["new"]).models k = false ∧
      k ∈ (updateModelsPass
        (fun _ => ⟨true, "/t", .ok (), .ok "x", fun _ => .ok []⟩)
        [("old", ⟨"old", [], none⟩)] ["new"]).disposedKeys)) :=
  ⟨by decide, rfl,
    updateModels_reconciles_key_set
      (fun _ => ⟨true, "/t", .ok (), .ok "x", fun _ => .ok []⟩)
      [("old", ⟨"old", [], none⟩)] ["new"] (by decide) rfl⟩

theorem createLoop_hits_error (envAt : String → SketchEnv)
    (pre post : List String) (s : LoopState) {k₀ : String} {e : JsError}
    (hpre : ∀ k ∈ pre, (getTempLaunchJsonContent (envAt k)).result.isOk = true)
    (hread : (getTempLaunchJsonContent (envAt k₀)).result = .error e)
    (hnew : hasKey (createLoop envAt pre s).models k₀ = false) :
    createLoop envAt (pre ++ k₀ :: post) s =
      { models := (createLoop envAt pre s).models
        attemptedKeys := (createLoop envAt pre s).attemptedKeys ++ [k₀]
        skippedKeys := (createLoop envAt pre s).skippedKeys
        effects := (createLoop envAt pre s).effects ++
          (getTempLaunchJsonContent (envAt k₀)).effects
        logs := (createLoop envAt pre s).logs +
          (getTempLaunchJsonContent (envAt k₀)).logs
        error := some e } := by
  rw [createLoop_append envAt pre (k₀ :: post) s hpre, createLoop, hnew,
    if_neg Bool.false_ne_true, hread]

/-- C9 -- A reconciliation pass is not atomic on error: if the read for some
newly-appearing root throws while the reads for the roots processed before
it succeed, the pass stops there with that error; models created for the
earlier roots stay registered, every pre-existing model (including those of
roots absent from the snapshot) is neither disposed nor removed, and the
end-of-pass `updateCurrent()` notification does not fire. -/
theorem pass_error_partial_state (envAt : String → SketchEnv)
    (models₀ : ModelMap) (pre post : List String) {k₀ : String} {e : JsError}
    (hnd : (pre ++ k₀ :: post).Nodup)
    (hpre : ∀ k ∈ pre, (getTempLaunchJsonContent (envAt k)).result.isOk = true)
    (hread : (getTempLaunchJsonContent (envAt k₀)).result = .error e)
    (hnew : hasKey models₀ k₀ = false) :
    (updateModelsPass envAt models₀ (pre ++ k₀ :: post)).error = some e ∧
    (updateModelsPass envAt models₀ (pre ++ k₀ :: post)).disposedKeys = [] ∧
    (updateModelsPass envAt models₀ (pre ++ k₀ :: post)).firedUpdateCurrent = false ∧
    (∀ k m, lookupModel models₀ k = some m →
      lookupModel (updateModelsPass envAt models₀ (pre ++ k₀ :: post)).models k = some m) ∧
    (∀ k ∈ pre, hasKey models₀ k = false →
      (getTempLaunchJsonContent (envAt k)).result ≠ .ok .noSketch →
      hasKey (updateModelsPass envAt models₀ (pre ++ k₀ :: post)).models k = true) := by
  have hk₀pre : k₀ ∉ pre := by
    intro hc
    exact (List.disjoint_of_nodup_append hnd) hc (List.mem_cons_self _ _)
  have hnew' : hasKey (createLoop envAt pre (initState models₀)).models k₀ = false := by
    rcases hx : hasKey (createLoop envAt pre (initState models₀)).models k₀ with _ | _
    · rfl
    · exfalso
      rcases createLoop_hasKey_new envAt pre _ hx with h' | h'
      · have h'' : hasKey models₀ k₀ = true := h'
        rw [hnew] at h''
        cases h''
      · exact hk₀pre h'
  have hL := createLoop_hits_error envAt pre post (initState models₀) hpre hread hnew'
  refine ⟨?_, ?_, ?_, ?_, ?_⟩
  · simp [updateModelsPass, hL]
  · simp [updateModelsPass, hL]
  · simp [updateModelsPass, hL]
  · intro k m hm
    simp only [updateModelsPass, hL]
    exact createLoop_lookup_mono envAt pre _ hm
  · intro k hk hknew hns
    simp only [updateModelsPass, hL]
    exact createLoop_ok_covered envAt pre _ hpre hk hns

theorem pass_error_partial_state_witness :
    ((["a"] ++ "bad" :: ["b"]) : List String).Nodup ∧
    (∀ k ∈ ["a"], (getTempLaunchJsonContent
        ((fun k => if k == "bad" then
            (⟨true, "/t", .ok (), .error (.jsonParseError "oops"), fun _ => .ok []⟩ : SketchEnv)
          else ⟨true, "/t", .ok (), .ok "x", fun _ => .ok []⟩) k)).result.isOk = true) ∧
    (getTempLaunchJsonContent
        ((fun k => if k == "bad" then
            (⟨true, "/t", .ok (), .error (.jsonParseError "oops"), fun _ => .ok []⟩ : SketchEnv)
          else ⟨true, "/t", .ok (), .ok "x", fun _ => .ok []⟩) "bad")).result
      = .error (.jsonParseError "oops") ∧
    hasKey [("gone", ⟨"gone", [], none⟩)] "bad" = false ∧
    ((updateModelsPass
        (fun k => if k == "bad" then
            (⟨true, "/t", .ok (), .error (.jsonParseError "oops"), fun _ => .ok []⟩ : SketchEnv)
          else ⟨true, "/t", .ok (), .ok "x", fun _ => .ok []⟩)
        [("gone", ⟨"gone", [], none⟩)] (["a"] ++ "bad" :: ["b"])).error
        = some (.jsonParseError "oops") ∧
      (updateModelsPass
        (fun k => if k == "bad" then
            (⟨true, "/t", .ok (), .error (.jsonParseError "oops"), fun _ => .ok []⟩ : SketchEnv)
          else ⟨true, "/t", .ok (), .ok "x", fun _ => .ok []⟩)
        [("gone", ⟨"gone", [], none⟩)] (["a"] ++ "bad" :: ["b"])).disposedKeys = [] ∧
      (updateModelsPass
        (fun k => if k == "bad" then
            (⟨true, "/t", .ok (), .error (.jsonParseError "oops"), fun _ => .ok []⟩ : SketchEnv)
          else ⟨true, "/t", .ok (), .ok "x", fun _ => .ok []⟩)
        [("gone", ⟨"gone", [], none⟩)] (["a"] ++ "bad" :: ["b"])).firedUpdateCurrent = false ∧
      (∀ k m, lookupModel [("gone", ⟨"gone", [], none⟩)] k = some m →
        lookupModel (updateModelsPass
          (fun k => if k == "bad" then
              (⟨true, "/t", .ok (), .error (.jsonParseError "oops"), fun _ => .ok []⟩ : SketchEnv)
            else ⟨true, "/t", .ok (), .ok "x", fun _ => .ok []⟩)
          [("gone", ⟨"gone", [], none⟩)] (["a"] ++ "bad" :: ["b"])).models k = some m) ∧
      (∀ k ∈ ["a"], hasKey [("gone", ⟨"gone", [], none⟩)] k = false →
        (getTempLaunchJsonContent
          ((fun k => if k == "bad" then
              (⟨true, "/t", .ok (), .error (.jsonParseError "oops"), fun _ => .ok []⟩ : SketchEnv)
            else ⟨true, "/t", .ok (), .ok "x", fun _ => .ok []⟩) k)).result ≠ .ok .noSketch →
        hasKey (updateModelsPass
          (fun k => if k == "bad" then
              (⟨true, "/t", .ok (), .error (.jsonParseError "oops"), fun _ => .ok []⟩ : SketchEnv)
            else ⟨true, "/t", .ok (), .ok "x", fun _ => .ok []⟩)
          [("gone", ⟨"gone", [], none⟩)] (["a"] ++ "bad" :: ["b"])).models k = true)) :=
  ⟨by decide,
   fun k hk => by rw [List.mem_singleton.mp hk]; rfl,
   rfl, rfl,
   pass_error_partial_state
     (fun k => if k == "bad" then
         (⟨true, "/t", .ok (), .error (.jsonParseError "oops"), fun _ => .ok []⟩ : SketchEnv)
       else ⟨true, "/t", .ok (), .ok "x", fun _ => .ok []⟩)
     [("gone", ⟨"gone", [], none⟩)] ["a"] ["b"]
     (by decide)
     (fun k hk => by rw [List.mem_singleton.mp hk]; rfl)
     rfl rfl⟩

/-- C10 -- Every call to `getTempLaunchJsonContent` with a valid current
project performs the temp-folder creation side effect before reading (the
read follows the creation in its effect trace, and happens only if creation
succeeded); within one error-free reconciliation pass the locate/create/read
sequence runs once per newly-appearing root, not once per pass; and a
watcher-triggered re-read performs the same effect sequence, so it too
re-creates the temp folder. -/
theorem tempFolder_created_before_read_per_root
    (env : SketchEnv) (envAt : String → SketchEnv)
    (models₀ : ModelMap) (roots : List String)
    (t : String) (changes : List FileChange) (c : FileChange)
    (hsk : env.sketchValid = true)
    (hnd : roots.Nodup)
    (hall : ∀ k ∈ roots, (getTempLaunchJsonContent (envAt k)).result.isOk = true)
    (hmatch : changes.find? (isLaunchJsonChange t) = some c) :
    ((getTempLaunchJsonContent env).effects.head? =
        some (.createFolder env.tempFolderUri) ∧
      (env.createFolderResult = .ok () →
        (getTempLaunchJsonContent env).effects =
          [.createFolder env.tempFolderUri,
           .readFile (launchJsonUri env.tempFolderUri)])) ∧
    (updateModelsPass envAt models₀ roots).attemptedKeys =
      roots.filter (fun k => !hasKey models₀ k) ∧
    (handleFilesChange env t changes).effects =
      (getTempLaunchJsonContent env).effects := by
  refine ⟨⟨?_, ?_⟩, ?_, ?_⟩
  · cases hcf : env.createFolderResult with
    | error e => simp [getTempLaunchJsonContent, hsk, hcf]
    | ok u =>
      cases htr : tryReadParse env with
      | ok content => simp [getTempLaunchJsonContent, hsk, hcf, htr]
      | error e' =>
        rcases hnf : isFileNotFoundError e' with _ | _ <;>
          simp [getTempLaunchJsonContent, hsk, hcf, htr, hnf]
  · intro hcf
    cases htr : tryReadParse env with
    | ok content => simp [getTempLaunchJsonContent, hsk, hcf, htr]
    | error e' =>
      rcases hnf : isFileNotFoundError e' with _ | _ <;>
        simp [getTempLaunchJsonContent, hsk, hcf, htr, hnf]
  · have hatt := createLoop_attempted envAt roots (initState models₀) hnd hall
    simp only [initState, List.nil_append] at hatt
    rcases he : (createLoop envAt roots (initState models₀)).error with _ | e <;>
      simp only [updateModelsPass, he] <;> exact hatt
  · simp only [handleFilesChange, hmatch]
    cases hres : (getTempLaunchJsonContent env).result with
    | error e => rfl
    | ok tr => cases tr <;> rfl

theorem tempFolder_created_before_read_per_root_witness :
    (true : Bool) = true ∧
    (["r"] : List String).Nodup ∧
    (∀ k ∈ ["r"], (getTempLaunchJsonContent
        ((fun _ => ⟨true, "/t", .ok (), .ok "x", fun _ => .ok []⟩ : String → SketchEnv)
          k)).result.isOk = true) ∧
    ([FileChange.mk "launch.json" "Tdir"].find? (isLaunchJsonChange "tdir")
      = some (FileChange.mk "launch.json" "Tdir")) ∧
    (((getTempLaunchJsonContent
        ⟨true, "/t", .ok (), .ok "x", fun _ => .ok []⟩).effects.head? =
        some (.createFolder "/t") ∧
      ((Except.ok () : Except JsError Unit) = .ok () →
        (getTempLaunchJsonContent
          ⟨true, "/t", .ok (), .ok "x", fun _ => .ok []⟩).effects =
          [.createFolder "/t", .readFile (launchJsonUri "/t")])) ∧
    (updateModelsPass
        (fun _ => ⟨true, "/t", .ok (), .ok "x", fun _ => .ok []⟩)
        [] ["r"]).attemptedKeys = (["r"] : List String).filter (fun k => !hasKey [] k) ∧
    (handleFilesChange ⟨true, "/t", .ok (), .ok "x", fun _ => .ok []⟩
        "tdir" [FileChange.mk "launch.json" "Tdir"]).effects =
      (getTempLaunchJsonContent
        ⟨true, "/t", .ok (), .ok "x", fun _ => .ok []⟩).effects) :=
  ⟨rfl, by decide, fun _ _ => rfl, rfl,
    tempFolder_created_before_read_per_root
      ⟨true, "/t", .ok (), .ok "x", fun _ => .ok []⟩
      (fun _ => ⟨true, "/t", .ok (), .ok "x", fun _ => .ok []⟩)
      [] ["r"] "tdir" [FileChange.mk "launch.json" "Tdir"]
      (FileChange.mk "launch.json" "Tdir")
      rfl (by decide) (fun _ _ => rfl) rfl⟩

theorem sched_start_lb (wait : Nat) (dur : Nat → Nat) (ts : List Nat)
    (free i : Nat) :
    ∀ p ∈ sched wait dur ts free i, free + wait ≤ p.1 := by
  induction ts generalizing free i with
  | nil =>
    intro p hp
    cases hp
  | cons t rest ih =>
    intro p hp
    rcases rest with _ | ⟨t', rest'⟩
    · rw [sched] at hp
      rcases List.mem_singleton.mp hp with h
      rw [h]
      exact Nat.add_le_add_right (Nat.le_max_right _ _) _
    · rw [sched] at hp
      by_cases hlt : t' < Nat.max t free + wait
      · rw [if_pos hlt] at hp
        exact ih free i p hp
      · rw [if_neg hlt] at hp
        rcases List.mem_cons.mp hp with h | h
        · rw [h]
          exact Nat.add_le_add_right (Nat.le_max_right _ _) _
        · have hlb := ih (Nat.max t free + wait + dur i) (i + 1) p h
          calc free + wait
              ≤ Nat.max t free + wait := Nat.add_le_add_right (Nat.le_max_right _ _) _
            _ ≤ Nat.max t free + wait + dur i := Nat.le_add_right _ _
            _ ≤ Nat.max t free + wait + dur i + wait := Nat.le_add_right _ _
            _ ≤ p.1 := hlb

theorem sched_finish_eq_start_add (wait : Nat) (dur : Nat → Nat) (ts : List Nat)
    (free i : Nat) :
    ∀ p ∈ sched wait dur ts free i, ∃ j, p.2 = p.1 + dur j := by
  induction ts generalizing free i with
  | nil =>
    intro p hp
    cases hp
  | cons t rest ih =>
    intro p hp
    rcases rest with _ | ⟨t', rest'⟩
    · rw [sched] at hp
      rcases List.mem_singleton.mp hp with h
      exact ⟨i, by rw [h]⟩
    · rw [sched] at hp
      by_cases hlt : t' < Nat.max t free + wait
      · rw [if_pos hlt] at hp
        exact ih free i p hp
      · rw [if_neg hlt] at hp
        rcases List.mem_cons.mp hp with h | h
        · exact ⟨i, by rw [h]⟩
        · exact ih (Nat.max t free + wait + dur i) (i + 1) p h

/-- C8 -- Modelled from the spec (the debounce wrapper is library code not
in this repository): reconciliation runs produced by the scheduler never
overlap and execute serially in submission order — each run finishes no
later than the next one starts, and every run's start does not precede its
own finish. -/
theorem debounced_passes_never_overlap (dur : Nat → Nat) (triggers : List Nat)
    (free i : Nat) :
    List.Chain' (fun a b : Nat × Nat => a.2 ≤ b.1)
      (sched updateModelsDebounceWait dur triggers free i) ∧
    ∀ p ∈ sched updateModelsDebounceWait dur triggers free i, p.1 ≤ p.2 := by
  constructor
  · induction triggers generalizing free i with
    | nil => exact List.chain'_nil
    | cons t rest ih =>
      rcases rest with _ | ⟨t', rest'⟩
      · rw [sched]
        exact List.chain'_singleton _
      · rw [sched]
        by_cases hlt : t' < Nat.max t free + updateModelsDebounceWait
        · rw [if_pos hlt]
          exact ih free i
        · rw [if_neg hlt]
          apply List.chain'_cons'.mpr
          constructor
          · intro b hb
            have hmem := List.mem_of_mem_head? hb
            have hlb := sched_start_lb updateModelsDebounceWait dur (t' :: rest')
              (Nat.max t free + updateModelsDebounceWait + dur i) (i + 1) b hmem
            calc Nat.max t free + updateModelsDebounceWait + dur i
                ≤ Nat.max t free + updateModelsDebounceWait + dur i +
                    updateModelsDebounceWait := Nat.le_add_right _ _
              _ ≤ b.1 := hlb
          · exact ih _ _
  · intro p hp
    rcases sched_finish_eq_start_add updateModelsDebounceWait dur triggers free i p hp
      with ⟨j, hj⟩
    rw [hj]
    exact Nat.le_add_right _ _

/-- C7 -- Modelled from the spec (the debounce wrapper is library code not
in this repository): for every pair of reconciliation triggers at times
`t₁` and `t₂` with the second arriving inside the first one's 500-unit
debounce window (e.g. t=0 and t=200), exactly one pass executes; it starts
at `t₂ + 500`, after the window elapses with no further trigger, and it
uses the workspace-root state and collaborator environment as sampled at
that start time. -/
theorem debounce_two_triggers_single_pass (dur : Nat → Nat)
    (rootsAt : Nat → List String) (envAtTime : Nat → String → SketchEnv)
    (models₀ : ModelMap) (t₁ t₂ : Nat)
    (hwin : t₂ < t₁ + updateModelsDebounceWait) :
    sched updateModelsDebounceWait dur [t₁, t₂] 0 0 =
      [(t₂ + updateModelsDebounceWait, t₂ + updateModelsDebounceWait + dur 0)] ∧
    debouncedUpdateModels dur [t₁, t₂] rootsAt envAtTime models₀ =
      [updateModelsPass (envAtTime (t₂ + updateModelsDebounceWait)) models₀
        (rootsAt (t₂ + updateModelsDebounceWait))] := by
  have hm₁ : Nat.max t₁ 0 = t₁ := Nat.max_zero t₁
  have hm₂ : Nat.max t₂ 0 = t₂ := Nat.max_zero t₂
  have hc : t₂ < Nat.max t₁ 0 + updateModelsDebounceWait := by
    rw [hm₁]
    exact hwin
  have h1 : sched updateModelsDebounceWait dur [t₁, t₂] 0 0 =
      [(t₂ + updateModelsDebounceWait, t₂ + updateModelsDebounceWait + dur 0)] := by
    rw [sched, if_pos hc, sched, hm₂]
  refine ⟨h1, ?_⟩
  rw [debouncedUpdateModels, h1, runPasses, runPasses]

theorem debounce_two_triggers_single_pass_witness :
    200 < 0 + updateModelsDebounceWait ∧
    (sched updateModelsDebounceWait (fun _ => 3) [0, 200] 0 0 =
        [(200 + updateModelsDebounceWait,
          200 + updateModelsDebounceWait + (fun _ => 3) 0)] ∧
      debouncedUpdateModels (fun _ => 3) [0, 200] (fun _ => ["r"])
          (fun _ _ => ⟨true, "/t", .ok (), .ok "x", fun _ => .ok []⟩) [] =
        [updateModelsPass
          ((fun _ _ => ⟨true, "/t", .ok (), .ok "x", fun _ => .ok []⟩)
            (200 + updateModelsDebounceWait)) []
          ((fun _ => ["r"]) (200 + updateModelsDebounceWait))]) :=
  ⟨by decide,
    debounce_two_triggers_single_pass (fun _ => 3) (fun _ => ["r"])
      (fun _ _ => ⟨true, "/t", .ok (), .ok "x", fun _ => .ok []⟩) [] 0 200
      (by decide)⟩
